import Mathlib

/-!
Shallow embedding of the puzzle-record analytics and ranking engine of the
chessudoku server: the `PuzzleRecord` model (validation, statistics, scoring
helpers) and the repository/service query layer (global/personal ranking,
best records, date-range queries).  SQL queries are modelled as pure
functions over an explicit record store (`List PuzzleRecord`); `ORDER BY`
is modelled as a stable sort (ties keep store order, standing in for the
database's unspecified-but-consistent tie order), `LIMIT`/`OFFSET` as
`take`/`drop`, and thrown JS `Error`s as `Except String`.
Timestamps are millisecond integers (JS `Date` compares by its numeric
value).
-/

/-- A row of the `puzzle_records` table / the `PuzzleRecord` model class. -/
structure PuzzleRecord where
  record_id : Nat
  account_id : String
  puzzle_type : String
  difficulty : String
  time_taken : Int
  hint_count : Int
  completed_at : Int
deriving DecidableEq, Repr

/-- One character of the account-id pattern `[A-Z0-9]`. -/
def isAccountIdChar (c : Char) : Bool :=
  ('A' ≤ c && c ≤ 'Z') || ('0' ≤ c && c ≤ '9')

/-- The regex test `/^[A-Z0-9]{12}$/.test s`. -/
def isAccountIdFormat (s : String) : Bool :=
  s.length == 12 && s.toList.all isAccountIdChar

/-- Result shape of `PuzzleRecord.validate`. -/
structure ValidationResult where
  isValid : Bool
  errors : List String
deriving DecidableEq, Repr

/-- The `account_id` block of `validate` (empty check, then pattern check);
each `if / else if` push-block contributes at most one message. -/
def accountIdCheck (r : PuzzleRecord) : Option String :=
  if r.account_id = "" then some "계정 ID는 필수입니다"
  else if ¬ isAccountIdFormat r.account_id then some "유효하지 않은 계정 ID 형식입니다"
  else none

/-- The `puzzle_type` block of `validate`. -/
def puzzleTypeCheck (r : PuzzleRecord) : Option String :=
  if r.puzzle_type = "" then some "퍼즐 타입은 필수입니다"
  else if r.puzzle_type.length > 50 then some "퍼즐 타입은 50자 이하여야 합니다"
  else none

/-- The `difficulty` block of `validate`. -/
def difficultyCheck (r : PuzzleRecord) : Option String :=
  if r.difficulty = "" then some "난이도는 필수입니다"
  else if r.difficulty.length > 20 then some "난이도는 20자 이하여야 합니다"
  else none

/-- The `time_taken` block of `validate`. -/
def timeTakenCheck (r : PuzzleRecord) : Option String :=
  if r.time_taken < 0 then some "소요 시간은 0 이상이어야 합니다"
  else if r.time_taken > 86400 then some "소요 시간이 너무 깁니다 (최대 24시간)"
  else none

/-- The `hint_count` block of `validate`. -/
def hintCountCheck (r : PuzzleRecord) : Option String :=
  if r.hint_count < 0 then some "힌트 사용 횟수는 0 이상이어야 합니다"
  else if r.hint_count > 100 then some "힌트 사용 횟수가 너무 많습니다 (최대 100회)"
  else none

/-- The `completed_at` block of `validate` (`completed_at > new Date()`);
`now` is the clock reading at the moment of validation. -/
def completedAtCheck (r : PuzzleRecord) (now : Int) : Option String :=
  if r.completed_at > now then some "완성 시간은 미래일 수 없습니다"
  else none

/-- Model of `PuzzleRecord.validate`: runs the six field blocks in source order,
appending each block's message (if any) to the `errors` array, and returns
`isValid = (errors.length === 0)` together with the accumulated list. -/
def validate (r : PuzzleRecord) (now : Int) : ValidationResult :=
  let errors : List String := []
  let errors := errors ++ (accountIdCheck r).toList
  let errors := errors ++ (puzzleTypeCheck r).toList
  let errors := errors ++ (difficultyCheck r).toList
  let errors := errors ++ (timeTakenCheck r).toList
  let errors := errors ++ (hintCountCheck r).toList
  let errors := errors ++ (completedAtCheck r now).toList
  ⟨errors.isEmpty, errors⟩

/-- The six validation checks in the order the source performs them. -/
def checkSequence (r : PuzzleRecord) (now : Int) : List (Option String) :=
  [accountIdCheck r, puzzleTypeCheck r, difficultyCheck r,
   timeTakenCheck r, hintCountCheck r, completedAtCheck r now]

/-! ### Canonical ranking order -/

/-- The canonical leaderboard order `ORDER BY hint_count ASC, time_taken ASC`:
lexicographic ≤ on `(hint_count, time_taken)`. -/
def hintTimeLe (a b : PuzzleRecord) : Prop :=
  a.hint_count < b.hint_count ∨ (a.hint_count = b.hint_count ∧ a.time_taken ≤ b.time_taken)

instance : DecidableRel hintTimeLe := fun a b =>
  inferInstanceAs (Decidable (_ ∨ _))

instance : IsTotal PuzzleRecord hintTimeLe where
  total a b := by
    unfold hintTimeLe
    rcases lt_trichotomy a.hint_count b.hint_count with h | h | h
    · exact Or.inl (Or.inl h)
    · rcases le_total a.time_taken b.time_taken with ht | ht
      · exact Or.inl (Or.inr ⟨h, ht⟩)
      · exact Or.inr (Or.inr ⟨h.symm, ht⟩)
    · exact Or.inr (Or.inl h)

instance : IsTrans PuzzleRecord hintTimeLe where
  trans a b c hab hbc := by
    unfold hintTimeLe at *
    rcases hab with h1 | ⟨h1, h1t⟩ <;> rcases hbc with h2 | ⟨h2, h2t⟩
    · exact Or.inl (h1.trans h2)
    · exact Or.inl (h2 ▸ h1)
    · exact Or.inl (h1 ▸ h2)
    · exact Or.inr ⟨h1.trans h2, h1t.trans h2t⟩

/-- A stable sort in the canonical order, modelling
`ORDER BY hint_count ASC, time_taken ASC`. -/
def canonicalSort (l : List PuzzleRecord) : List PuzzleRecord :=
  List.insertionSort hintTimeLe l

/-! ### Global ranking (`PuzzleRepository.getGlobalRanking`) -/

/-- One leaderboard row of `getGlobalRanking`. -/
structure RankingEntry where
  rank : Nat
  account_id : String
  hint_count : Int
  time_taken : Int
  completed_at : Int
deriving DecidableEq, Repr

/-- Model of `ROW_NUMBER() OVER (ORDER BY hint_count ASC, time_taken ASC)`:
numbers the already-sorted rows consecutively starting at `i`. -/
def assignRanks : Nat → List PuzzleRecord → List RankingEntry
  | _, [] => []
  | i, r :: rest =>
    ⟨i, r.account_id, r.hint_count, r.time_taken, r.completed_at⟩ :: assignRanks (i + 1) rest

/-- Whether a record matches the global-ranking filter
(`puzzle_type = $1`, and `difficulty = $2` only when supplied). -/
def matchesRankingFilter (puzzleType : String) (difficulty : Option String)
    (r : PuzzleRecord) : Bool :=
  r.puzzle_type = puzzleType ∧ ∀ d ∈ difficulty, r.difficulty = d

/-- Model of `PuzzleRepository.getGlobalRanking`: filter by type (and optional
difficulty), sort by the canonical order, number the rows from 1, and
apply `LIMIT`. -/
def getGlobalRanking (store : List PuzzleRecord) (puzzleType : String)
    (difficulty : Option String) (limit : Nat) : List RankingEntry :=
  let filtered := store.filter (matchesRankingFilter puzzleType difficulty)
  (assignRanks 1 (canonicalSort filtered)).take limit

/-! ### Generic record query (`PuzzleRepository.findByAccountId`) -/

/-- The sortable columns accepted by `PuzzleRecordQueryOptions.sort_by`. -/
inductive SortBy where
  | completed_at
  | hint_count
  | time_taken
deriving DecidableEq, Repr

/-- The `sort_order` values of `PuzzleRecordQueryOptions`. -/
inductive SortOrder where
  | ASC
  | DESC
deriving DecidableEq, Repr

/-- Model of `PuzzleRecordQueryOptions`.  An absent (or JS-falsy) field is `none`. -/
structure QueryOptions where
  puzzle_type : Option String := none
  difficulty : Option String := none
  limit : Option Nat := none
  offset : Option Nat := none
  sort_by : Option SortBy := none
  sort_order : Option SortOrder := none
  date_from : Option Int := none
  date_to : Option Int := none

/-- The column value a `sort_by` choice orders on. -/
def sortColumn : SortBy → PuzzleRecord → Int
  | .completed_at, r => r.completed_at
  | .hint_count, r => r.hint_count
  | .time_taken, r => r.time_taken

/-- The `ORDER BY <sortColumn> <sortOrder>` comparison. -/
def columnOrder (sb : SortBy) (so : SortOrder) (a b : PuzzleRecord) : Prop :=
  match so with
  | .ASC => sortColumn sb a ≤ sortColumn sb b
  | .DESC => sortColumn sb b ≤ sortColumn sb a

instance (sb : SortBy) (so : SortOrder) : DecidableRel (columnOrder sb so) := fun a b => by
  unfold columnOrder
  cases so <;> exact inferInstance

instance (sb : SortBy) (so : SortOrder) : IsTotal PuzzleRecord (columnOrder sb so) where
  total a b := by unfold columnOrder; cases so <;> exact Int.le_total ..

instance (sb : SortBy) (so : SortOrder) : IsTrans PuzzleRecord (columnOrder sb so) where
  trans a b c hab hbc := by
    unfold columnOrder at *
    cases so
    · exact le_trans hab hbc
    · exact le_trans hbc hab

/-- The `WHERE` clause of `findByAccountId`: account equality plus the
optional type / difficulty / date filters. -/
def matchesQuery (accountId : String) (opts : QueryOptions) (r : PuzzleRecord) : Bool :=
  r.account_id = accountId
    ∧ (∀ t ∈ opts.puzzle_type, r.puzzle_type = t)
    ∧ (∀ d ∈ opts.difficulty, r.difficulty = d)
    ∧ (∀ lo ∈ opts.date_from, lo ≤ r.completed_at)
    ∧ (∀ hi ∈ opts.date_to, r.completed_at ≤ hi)

/-- Model of `PuzzleRepository.findByAccountId`: filter, `ORDER BY` the requested
column (default `completed_at DESC`), then `LIMIT` (and `OFFSET`, which the
source only appends when a limit is present). -/
def findByAccountId (store : List PuzzleRecord) (accountId : String)
    (opts : QueryOptions) : List PuzzleRecord :=
  let rows := store.filter (matchesQuery accountId opts)
  let sb := opts.sort_by.getD .completed_at
  let so := opts.sort_order.getD .DESC
  let sorted := List.insertionSort (columnOrder sb so) rows
  match opts.limit with
  | none => sorted
  | some lim =>
    match opts.offset with
    | none => sorted.take lim
    | some off => (sorted.drop off).take lim

/-! ### Date-range query
(`PuzzleRepository.findByDateRange`, `PuzzleService.getRecordsByDateRange`) -/

/-- Model of `PuzzleRepository.findByDateRange`: records of the account completed in
`[startDate, endDate]`, newest first. -/
def findByDateRange (store : List PuzzleRecord) (accountId : String)
    (startDate endDate : Int) : List PuzzleRecord :=
  List.insertionSort (columnOrder .completed_at .DESC)
    (store.filter fun r =>
      r.account_id = accountId ∧ startDate ≤ r.completed_at ∧ r.completed_at ≤ endDate)

/-- The constant `365 * 24 * 60 * 60 * 1000` — one year in milliseconds. -/
def oneYearInMs : Int := 365 * 24 * 60 * 60 * 1000

/-- Model of `PuzzleService.getRecordsByDateRange`: account-id check, date-order
check, one-year-span check, then the repository query. -/
def getRecordsByDateRange (store : List PuzzleRecord) (accountId : String)
    (startDate endDate : Int) : Except String (List PuzzleRecord) :=
  if ¬ isAccountIdFormat accountId then .error "유효하지 않은 계정 ID 형식입니다"
  else if startDate > endDate then .error "시작 날짜는 종료 날짜보다 이전이어야 합니다"
  else if endDate - startDate > oneYearInMs then .error "조회 기간은 최대 1년입니다"
  else .ok (findByDateRange store accountId startDate endDate)

/-! ### Best records (`PuzzleRepository.getBestRecords`) -/

/-- The `fewestHints` field of `getBestRecords`:
`ORDER BY hint_count ASC, time_taken ASC LIMIT 1` over the account's rows. -/
def fewestHintsRecord (store : List PuzzleRecord) (accountId : String) :
    Option PuzzleRecord :=
  (canonicalSort (store.filter fun r => r.account_id = accountId)).head?

/-! ### Personal ranking (`PuzzleService.getPersonalRanking`) -/

/-- Result shape of `getPersonalRanking`. -/
structure PersonalRankingResult where
  rank : Option Nat
  total_participants : Nat
  personal_best : Option PuzzleRecord
deriving DecidableEq, Repr

/-- Model of `PuzzleService.getPersonalRanking`: materialize the global ranking with
limit 10000, linearly scan for the account's first entry, and fetch the
"personal best" via `findByAccountId` with `sort_by: hint_count ASC,
limit: 1`. -/
def getPersonalRanking (store : List PuzzleRecord) (accountId puzzleType : String)
    (difficulty : Option String) : Except String PersonalRankingResult :=
  if ¬ isAccountIdFormat accountId then .error "유효하지 않은 계정 ID 형식입니다"
  else
    let globalRanking := getGlobalRanking store puzzleType difficulty 10000
    let personalRank := globalRanking.find? fun e => e.account_id = accountId
    let personalRecords := findByAccountId store accountId
      { puzzle_type := some puzzleType, difficulty := difficulty,
        sort_by := some .hint_count, sort_order := some .ASC, limit := some 1 }
    .ok ⟨personalRank.map (·.rank), globalRanking.length, personalRecords.head?⟩

/-! ### Aggregator (`PuzzleRecord.calculateStats`) -/

/-- Per-group entry of `by_difficulty` / `by_type`. -/
structure GroupStat where
  count : Nat
  best_time : Int
  total_hints : Int
deriving DecidableEq, Repr

/-- One `forEach` step on an existing group entry: `count++`,
`best_time = Math.min(best_time, time)`, `total_hints += hint`. -/
def bumpGroup (g : GroupStat) (time hint : Int) : GroupStat :=
  ⟨g.count + 1, min g.best_time time, g.total_hints + hint⟩

/-- Insert or update the group keyed `k` in the (insertion-ordered)
association list modelling the JS object.  A fresh key first gets
`{count: 0, best_time: Infinity, total_hints: 0}` and is then immediately
bumped by the same iteration, which nets out to `⟨1, time, hint⟩`. -/
def upsertGroup : List (String × GroupStat) → String → Int → Int →
    List (String × GroupStat)
  | [], k, time, hint => [(k, ⟨1, time, hint⟩)]
  | (k', g) :: rest, k, time, hint =>
    if k' = k then (k', bumpGroup g time hint) :: rest
    else (k', g) :: upsertGroup rest k time hint

/-- The grouping `forEach` loop of `calculateStats`, for a chosen key
(`puzzle_type` or `difficulty`). -/
def groupStats (key : PuzzleRecord → String) (records : List PuzzleRecord) :
    List (String × GroupStat) :=
  records.foldl (fun m r => upsertGroup m (key r) r.time_taken r.hint_count) []

/-- JS-object key lookup on the association list. -/
def lookupGroup (k : String) : List (String × GroupStat) → Option GroupStat
  | [] => none
  | (k', g) :: rest => if k' = k then some g else lookupGroup k rest

/-- Model of `Math.min(...records.map(r => r.time_taken))` over a non-empty list
(`0` is the empty-branch value of `calculateStats`). -/
def minTimeTaken : List PuzzleRecord → Int
  | [] => 0
  | r :: rest => rest.foldl (fun a x => min a x.time_taken) r.time_taken

/-- The `PuzzleStats` result shape. -/
structure PuzzleStats where
  total_puzzles : Nat
  total_time : Int
  average_time : Int
  best_time : Int
  total_hints : Int
  average_hints : Int
  by_difficulty : List (String × GroupStat)
  by_type : List (String × GroupStat)
deriving DecidableEq, Repr

/-- Model of `PuzzleRecord.calculateStats`.  `Math.round` of the floating quotient is
`round` of the exact rational (round-half-up on both sides). -/
def calculateStats (records : List PuzzleRecord) : PuzzleStats :=
  match records with
  | [] => ⟨0, 0, 0, 0, 0, 0, [], []⟩
  | _ :: _ =>
    let total_puzzles := records.length
    let total_time := records.foldl (fun s r => s + r.time_taken) 0
    let total_hints := records.foldl (fun s r => s + r.hint_count) 0
    let best_time := minTimeTaken records
    { total_puzzles := total_puzzles
      total_time := total_time
      average_time := round ((total_time : ℚ) / (total_puzzles : ℚ))
      best_time := best_time
      total_hints := total_hints
      average_hints := round ((total_hints : ℚ) / (total_puzzles : ℚ))
      by_difficulty := groupStats (·.difficulty) records
      by_type := groupStats (·.puzzle_type) records }

/-! ### Hint score (`PuzzleRecord.getHintScore`) -/

/-- JS `toLowerCase()` (the difficulty labels of interest are ASCII):
lower-cases every character. -/
def lowerString (s : String) : String :=
  ⟨s.data.map Char.toLower⟩

/-- The `difficultyMultiplier` object lookup on `difficulty.toLowerCase()`,
with the `|| 1.0` fallback. -/
def difficultyMultiplier (difficulty : String) : ℚ :=
  if lowerString difficulty = "easy" then 1
  else if lowerString difficulty = "medium" then 3 / 2
  else if lowerString difficulty = "hard" then 2
  else if lowerString difficulty = "expert" then 3
  else 1

/-- Model of `PuzzleRecord.getHintScore`: with `baseScore = 100` and
`penalty = hint_count * 5`, returns
`Math.max(0, Math.round((baseScore - penalty) * multiplier))`.
JS `Math.round x = ⌊x + 1/2⌋`, which is Mathlib's `round` on `ℚ`. -/
def getHintScore (r : PuzzleRecord) : Int :=
  max 0 (round (((100 - r.hint_count * 5 : Int) : ℚ) * difficultyMultiplier r.difficulty))

/-- Modelled from the spec's words (the refinement side of the hint-score
claim): "100 minus 5 points per hint, floored at 0, multiplied by a
difficulty multiplier", the multiplier looked up case-insensitively with
unknown difficulties defaulting to 1.0.  The spec states no rounding, so
the value is an exact rational. -/
def hintScoreSpec (r : PuzzleRecord) : ℚ :=
  ((max 0 (100 - 5 * r.hint_count) : Int) : ℚ) * difficultyMultiplier r.difficulty

/-!
## Helper lemmas
-/

theorem assignRanks_length (i : Nat) (l : List PuzzleRecord) :
    (assignRanks i l).length = l.length := by
  induction l generalizing i with
  | nil => rfl
  | cons r rest ih => simp [assignRanks, ih]

theorem assignRanks_map_rank (i : Nat) (l : List PuzzleRecord) :
    (assignRanks i l).map RankingEntry.rank = List.range' i l.length := by
  induction l generalizing i with
  | nil => rfl
  | cons r rest ih => simp [assignRanks, List.range'_succ, ih]

theorem mem_assignRanks {e : RankingEntry} : ∀ {i : Nat} {l : List PuzzleRecord},
    e ∈ assignRanks i l →
    ∃ r ∈ l, e.hint_count = r.hint_count ∧ e.time_taken = r.time_taken := by
  intro i l
  induction l generalizing i with
  | nil => intro h; cases h
  | cons r rest ih =>
    intro h
    rcases List.mem_cons.mp h with h | h
    · exact ⟨r, List.mem_cons_self .., by rw [h], by rw [h]⟩
    · obtain ⟨r', hr', h1, h2⟩ := ih h
      exact ⟨r', List.mem_cons_of_mem _ hr', h1, h2⟩

/-- The canonical lexicographic order carried over to ranking entries. -/
theorem assignRanks_pairwise (i : Nat) (l : List PuzzleRecord)
    (h : l.Pairwise hintTimeLe) :
    (assignRanks i l).Pairwise (fun A B => A.hint_count < B.hint_count ∨
      (A.hint_count = B.hint_count ∧ A.time_taken ≤ B.time_taken)) := by
  induction l generalizing i with
  | nil => exact List.Pairwise.nil
  | cons r rest ih =>
    rcases h with _ | ⟨hr, hrest⟩
    refine List.Pairwise.cons ?_ (ih (i + 1) hrest)
    intro e he
    obtain ⟨r', hr', h1, h2⟩ := mem_assignRanks he
    have := hr r' hr'
    unfold hintTimeLe at this
    simp only [h1, h2]
    exact this

theorem mem_range'_iff {m s n : Nat} : m ∈ List.range' s n ↔ s ≤ m ∧ m < s + n := by
  rw [List.mem_range']
  constructor
  · rintro ⟨j, hj, rfl⟩; omega
  · rintro ⟨h1, h2⟩; exact ⟨m - s, by omega, by omega⟩

theorem take_range' (s : Nat) : ∀ (n k : Nat),
    (List.range' s n).take k = List.range' s (min k n) := by
  intro n
  induction n generalizing s with
  | zero => intro k; simp
  | succ n ih =>
    intro k
    cases k with
    | zero => simp
    | succ k => simp [List.range'_succ, ih (s + 1) k, Nat.succ_min_succ]

/-- Unfolding of `getGlobalRanking` used by several proofs. -/
theorem getGlobalRanking_eq (store : List PuzzleRecord) (puzzleType : String)
    (difficulty : Option String) (limit : Nat) :
    getGlobalRanking store puzzleType difficulty limit =
      (assignRanks 1 (canonicalSort
        (store.filter (matchesRankingFilter puzzleType difficulty)))).take limit := rfl

theorem getGlobalRanking_map_rank (store : List PuzzleRecord) (puzzleType : String)
    (difficulty : Option String) (limit : Nat) :
    (getGlobalRanking store puzzleType difficulty limit).map RankingEntry.rank =
      List.range' 1 (getGlobalRanking store puzzleType difficulty limit).length := by
  rw [getGlobalRanking_eq, List.map_take, assignRanks_map_rank, take_range',
    List.length_take, assignRanks_length]

/-- Every rank in a limited global ranking is at most the limit. -/
theorem rank_le_limit {store : List PuzzleRecord} {puzzleType : String}
    {difficulty : Option String} {limit : Nat} {e : RankingEntry}
    (he : e ∈ getGlobalRanking store puzzleType difficulty limit) :
    e.rank ≤ limit := by
  have hmem : e.rank ∈ (getGlobalRanking store puzzleType difficulty limit).map
      RankingEntry.rank := List.mem_map_of_mem _ he
  rw [getGlobalRanking_map_rank] at hmem
  have hlen : (getGlobalRanking store puzzleType difficulty limit).length ≤ limit := by
    rw [getGlobalRanking_eq]; exact List.length_take_le ..
  have := mem_range'_iff.mp hmem
  omega

/-- Head of a stable sort under a total transitive relation: it is an element
of the list and a lower bound for it. -/
theorem insertionSort_head_min {α : Type} (r : α → α → Prop) [DecidableRel r]
    [IsTotal α r] [IsTrans α r] (l : List α) (hne : l ≠ []) :
    ∃ p, (List.insertionSort r l).head? = some p ∧ p ∈ l ∧ ∀ x ∈ l, r p x := by
  have hperm := List.perm_insertionSort r l
  have hsorted := List.sorted_insertionSort r l
  match hsort : List.insertionSort r l with
  | [] =>
    rw [hsort] at hperm
    exact absurd (hperm.symm.eq_nil) hne
  | p :: tail =>
    rw [hsort] at hperm hsorted
    refine ⟨p, rfl, hperm.mem_iff.mp (List.mem_cons_self ..), ?_⟩
    intro x hx
    rcases List.mem_cons.mp (hperm.mem_iff.mpr hx) with h | h
    · subst h
      rcases IsTotal.total (r := r) x x with h' | h' <;> exact h'
    · exact List.rel_of_sorted_cons hsorted x h

theorem sumCounts_upsert (m : List (String × GroupStat)) (k : String) (t h : Int) :
    ((upsertGroup m k t h).map (fun g => g.2.count)).sum =
      (m.map (fun g => g.2.count)).sum + 1 := by
  induction m with
  | nil => simp [upsertGroup]
  | cons p rest ih =>
    obtain ⟨k', g⟩ := p
    by_cases hk : k' = k
    · simp [upsertGroup, hk, bumpGroup]
      omega
    · simp [upsertGroup, hk, ih]
      omega

theorem sumCounts_groupStats_fold (key : PuzzleRecord → String) :
    ∀ (l : List PuzzleRecord) (m : List (String × GroupStat)),
    ((l.foldl (fun m r => upsertGroup m (key r) r.time_taken r.hint_count) m).map
        (fun g => g.2.count)).sum =
      (m.map (fun g => g.2.count)).sum + l.length := by
  intro l
  induction l with
  | nil => intro m; simp
  | cons r rest ih =>
    intro m
    rw [List.foldl_cons, ih, sumCounts_upsert]
    simp
    omega

theorem foldl_add_eq (f : PuzzleRecord → Int) :
    ∀ (l : List PuzzleRecord) (a : Int),
      l.foldl (fun s r => s + f r) a = a + (l.map f).sum := by
  intro l
  induction l with
  | nil => intro a; simp
  | cons r rest ih =>
    intro a
    rw [List.foldl_cons, ih]
    simp
    ring

theorem foldl_min_le : ∀ (l : List Int) (a : Int),
    l.foldl min a ≤ a ∧ ∀ x ∈ l, l.foldl min a ≤ x := by
  intro l
  induction l with
  | nil => intro a; exact ⟨le_refl a, by simp⟩
  | cons x xs ih =>
    intro a
    rw [List.foldl_cons]
    obtain ⟨h1, h2⟩ := ih (min a x)
    refine ⟨h1.trans (min_le_left ..), ?_⟩
    intro y hy
    rcases List.mem_cons.mp hy with rfl | hy
    · exact h1.trans (min_le_right ..)
    · exact h2 y hy

theorem foldl_min_mem : ∀ (l : List Int) (a : Int),
    l.foldl min a = a ∨ l.foldl min a ∈ l := by
  intro l
  induction l with
  | nil => intro a; exact Or.inl rfl
  | cons x xs ih =>
    intro a
    rw [List.foldl_cons]
    rcases ih (min a x) with he | hm
    · rcases min_choice a x with hc | hc
      · exact Or.inl (he.trans hc)
      · exact Or.inr (List.mem_cons.mpr (Or.inl (he.trans hc)))
    · exact Or.inr (List.mem_cons_of_mem _ hm)

/-- The minimum of a non-empty integer list, as the source folds it. -/
def minIntList : List Int → Int
  | [] => 0
  | x :: xs => xs.foldl min x

theorem minIntList_spec (l : List Int) (h : l ≠ []) :
    minIntList l ∈ l ∧ ∀ x ∈ l, minIntList l ≤ x := by
  match l with
  | x :: xs =>
    constructor
    · rcases foldl_min_mem xs x with he | hm
      · rw [show minIntList (x :: xs) = xs.foldl min x from rfl, he]
        exact List.mem_cons_self ..
      · exact List.mem_cons_of_mem _ hm
    · intro y hy
      obtain ⟨h1, h2⟩ := foldl_min_le xs x
      rcases List.mem_cons.mp hy with rfl | hy
      · exact h1
      · exact h2 y hy

theorem minIntList_perm {l l' : List Int} (h : l.Perm l') :
    minIntList l = minIntList l' := by
  rcases eq_or_ne l [] with rfl | hne
  · rw [(h.symm.eq_nil : l' = [])]
  · have hne' : l' ≠ [] := fun e => hne ((e ▸ h).eq_nil)
    obtain ⟨hm, hle⟩ := minIntList_spec l hne
    obtain ⟨hm', hle'⟩ := minIntList_spec l' hne'
    exact le_antisymm (hle _ (h.mem_iff.mpr hm')) (hle' _ (h.mem_iff.mp hm))

theorem minTimeTaken_eq (l : List PuzzleRecord) :
    minTimeTaken l = minIntList (l.map (·.time_taken)) := by
  cases l with
  | nil => rfl
  | cons r rest =>
    show rest.foldl (fun a x => min a x.time_taken) r.time_taken = _
    rw [show minIntList ((r :: rest).map (·.time_taken)) =
      (rest.map (·.time_taken)).foldl min r.time_taken from rfl, List.foldl_map]

theorem lookupGroup_upsert_self (k : String) (t h : Int) :
    ∀ (m : List (String × GroupStat)),
    lookupGroup k (upsertGroup m k t h) =
      some (match lookupGroup k m with
            | none => ⟨1, t, h⟩
            | some g => bumpGroup g t h) := by
  intro m
  induction m with
  | nil => simp [upsertGroup, lookupGroup]
  | cons p rest ih =>
    obtain ⟨k', g⟩ := p
    by_cases hk : k' = k
    · simp [upsertGroup, hk, lookupGroup]
    · simp [upsertGroup, hk, lookupGroup, ih]

theorem lookupGroup_upsert_other {k' k : String} (t h : Int) (hne : k' ≠ k) :
    ∀ (m : List (String × GroupStat)),
    lookupGroup k (upsertGroup m k' t h) = lookupGroup k m := by
  intro m
  induction m with
  | nil => simp [upsertGroup, lookupGroup, hne]
  | cons p rest ih =>
    obtain ⟨k'', g⟩ := p
    by_cases hk : k'' = k'
    · subst hk
      simp [upsertGroup, lookupGroup, hne]
    · simp [upsertGroup, hk, lookupGroup, ih]

/-- One grouping step restricted to a single key's entry. -/
def collectStep (o : Option GroupStat) (r : PuzzleRecord) : Option GroupStat :=
  some (match o with
        | none => ⟨1, r.time_taken, r.hint_count⟩
        | some g => bumpGroup g r.time_taken r.hint_count)

/-- The grouping fold, restricted to a single key's entry. -/
def collectGroup (o : Option GroupStat) (l : List PuzzleRecord) : Option GroupStat :=
  l.foldl collectStep o

theorem lookupGroup_fold (key : PuzzleRecord → String) (k : String) :
    ∀ (l : List PuzzleRecord) (m : List (String × GroupStat)),
    lookupGroup k
        (l.foldl (fun m r => upsertGroup m (key r) r.time_taken r.hint_count) m) =
      collectGroup (lookupGroup k m) (l.filter (fun r => key r = k)) := by
  intro l
  induction l with
  | nil => intro m; rfl
  | cons r rest ih =>
    intro m
    by_cases hk : key r = k
    · subst hk
      rw [List.foldl_cons, ih, List.filter_cons_of_pos (by simp)]
      rw [show collectGroup (lookupGroup (key r) m)
            (r :: rest.filter (fun x => key x = key r)) =
          collectGroup (collectStep (lookupGroup (key r) m) r)
            (rest.filter (fun x => key x = key r)) from rfl]
      rw [lookupGroup_upsert_self]
      rfl
    · rw [List.foldl_cons, ih, List.filter_cons_of_neg (by simp [hk]),
        lookupGroup_upsert_other _ _ hk]

theorem collectGroup_some : ∀ (l : List PuzzleRecord) (g : GroupStat),
    collectGroup (some g) l =
      some ⟨g.count + l.length,
        (l.map (·.time_taken)).foldl min g.best_time,
        g.total_hints + (l.map (·.hint_count)).sum⟩ := by
  intro l
  induction l with
  | nil => intro g; simp [collectGroup]
  | cons r rest ih =>
    intro g
    rw [show collectGroup (some g) (r :: rest) =
      collectGroup (some (bumpGroup g r.time_taken r.hint_count)) rest from rfl, ih]
    simp [bumpGroup, GroupStat.mk.injEq]
    refine ⟨by omega, by ring⟩

theorem collectGroup_none_eq (l : List PuzzleRecord) (h : l ≠ []) :
    collectGroup none l =
      some ⟨l.length, minIntList (l.map (·.time_taken)),
        (l.map (·.hint_count)).sum⟩ := by
  match l with
  | r :: rest =>
    rw [show collectGroup none (r :: rest) =
      collectGroup (some ⟨1, r.time_taken, r.hint_count⟩) rest from rfl,
      collectGroup_some]
    simp [GroupStat.mk.injEq, minIntList, List.foldl_map]
    omega

theorem lookupGroup_groupStats (key : PuzzleRecord → String) (k : String)
    (l : List PuzzleRecord) :
    lookupGroup k (groupStats key l) =
      collectGroup none (l.filter (fun r => key r = k)) := by
  unfold groupStats
  rw [lookupGroup_fold]
  rfl

theorem lookupGroup_groupStats_perm (key : PuzzleRecord → String) (k : String)
    {l l' : List PuzzleRecord} (h : l.Perm l') :
    lookupGroup k (groupStats key l) = lookupGroup k (groupStats key l') := by
  rw [lookupGroup_groupStats, lookupGroup_groupStats]
  have hf : (l.filter (fun r => key r = k)).Perm
      (l'.filter (fun r => key r = k)) := h.filter _
  rcases eq_or_ne (l.filter (fun r => key r = k)) [] with hnil | hne
  · have hnil' : l'.filter (fun r => key r = k) = [] := ((hnil ▸ hf).symm).eq_nil
    rw [hnil, hnil']
  · have hne' : l'.filter (fun r => key r = k) ≠ [] :=
      fun e => hne ((e ▸ hf).eq_nil)
    rw [collectGroup_none_eq _ hne, collectGroup_none_eq _ hne']
    have h1 := hf.length_eq
    have h2 := minIntList_perm (hf.map (·.time_taken))
    have h3 := (hf.map (·.hint_count)).sum_eq
    rw [h1, h2, h3]

/-- All fields of `calculateStats` on a non-empty input, in closed form. -/
theorem calculateStats_fields (l : List PuzzleRecord) (h : l ≠ []) :
    (calculateStats l).total_puzzles = l.length ∧
    (calculateStats l).total_time = (l.map (·.time_taken)).sum ∧
    (calculateStats l).total_hints = (l.map (·.hint_count)).sum ∧
    (calculateStats l).best_time = minIntList (l.map (·.time_taken)) ∧
    (calculateStats l).average_time =
      round ((((l.map (·.time_taken)).sum : Int) : ℚ) / (l.length : ℚ)) ∧
    (calculateStats l).average_hints =
      round ((((l.map (·.hint_count)).sum : Int) : ℚ) / (l.length : ℚ)) ∧
    (calculateStats l).by_type = groupStats (·.puzzle_type) l ∧
    (calculateStats l).by_difficulty = groupStats (·.difficulty) l := by
  match l with
  | r :: rest =>
    have ht : (r :: rest).foldl (fun s x => s + x.time_taken) 0 =
        ((r :: rest).map (·.time_taken)).sum := by
      rw [foldl_add_eq]; ring
    have hh : (r :: rest).foldl (fun s x => s + x.hint_count) 0 =
        ((r :: rest).map (·.hint_count)).sum := by
      rw [foldl_add_eq]; ring
    refine ⟨rfl, ht, hh, ?_, ?_, ?_, rfl, rfl⟩
    · show minTimeTaken (r :: rest) = _
      exact minTimeTaken_eq _
    · show round (((((r :: rest).foldl (fun s x => s + x.time_taken) 0) : Int) : ℚ) /
        ((r :: rest).length : ℚ)) = _
      rw [ht]
    · show round (((((r :: rest).foldl (fun s x => s + x.hint_count) 0) : Int) : ℚ) /
        ((r :: rest).length : ℚ)) = _
      rw [hh]

/-!
## Claim theorems
-/

/-- C1: for every stored record set, puzzle type, optional difficulty and
limit, the sequence returned by `getGlobalRanking` is sorted in the
canonical order: whenever entry `A` precedes entry `B`,
`(A.hint_count, A.time_taken)` is lexicographically ≤
`(B.hint_count, B.time_taken)`. -/
theorem getGlobalRanking_canonical_order (store : List PuzzleRecord)
    (puzzleType : String) (difficulty : Option String) (limit : Nat) :
    (getGlobalRanking store puzzleType difficulty limit).Pairwise
      (fun A B => A.hint_count < B.hint_count ∨
        (A.hint_count = B.hint_count ∧ A.time_taken ≤ B.time_taken)) := by
  rw [getGlobalRanking_eq]
  exact (assignRanks_pairwise 1 _
    (List.sorted_insertionSort hintTimeLe _)).sublist (List.take_sublist ..)

/-- C2: the `rank` fields of a global ranking of `N` entries are exactly
`1, 2, …, N` in result order — dense 1-based positions with no gaps and no
shared ranks, regardless of ties. -/
theorem getGlobalRanking_dense_ranks (store : List PuzzleRecord)
    (puzzleType : String) (difficulty : Option String) (limit : Nat) :
    (getGlobalRanking store puzzleType difficulty limit).map RankingEntry.rank =
      List.range' 1 (getGlobalRanking store puzzleType difficulty limit).length :=
  getGlobalRanking_map_rank store puzzleType difficulty limit

/-- C10: `getPersonalRanking` materializes the global ranking with a fixed
limit of 10000 entries, so `total_participants` never exceeds 10000 and any
returned rank is at most 10000. -/
theorem getPersonalRanking_capped (store : List PuzzleRecord)
    (accountId puzzleType : String) (difficulty : Option String)
    (hacct : isAccountIdFormat accountId = true) :
    ∃ res, getPersonalRanking store accountId puzzleType difficulty = .ok res ∧
      res.total_participants ≤ 10000 ∧ ∀ rk ∈ res.rank, rk ≤ 10000 := by
  unfold getPersonalRanking
  rw [if_neg (by simp [hacct])]
  refine ⟨_, rfl, ?_, ?_⟩
  · rw [getGlobalRanking_eq]
    exact List.length_take_le ..
  · intro rk hrk
    simp only [Option.mem_def, Option.map_eq_some'] at hrk
    obtain ⟨e, he, rfl⟩ := hrk
    exact rank_le_limit (List.mem_of_find?_eq_some he)

/-- C10 witness. -/
theorem getPersonalRanking_capped_witness :
    isAccountIdFormat "AAAAAAAAAAAA" = true ∧
    ∃ res, getPersonalRanking [] "AAAAAAAAAAAA" "t" none = .ok res ∧
      res.total_participants ≤ 10000 ∧ ∀ rk ∈ res.rank, rk ≤ 10000 :=
  ⟨by decide, getPersonalRanking_capped [] "AAAAAAAAAAAA" "t" none (by decide)⟩

/-- C7: for every account with at least one record, the best-record
resolver's "fewest hints overall" pick `p` has `p.hint_count ≤ r.hint_count`
for every record `r` of the account, and among the account's records tied on
that minimal hint count, `p` has the minimum `time_taken`. -/
theorem fewestHints_lex_min (store : List PuzzleRecord) (accountId : String)
    (h : ∃ r ∈ store, r.account_id = accountId) :
    ∃ p, fewestHintsRecord store accountId = some p ∧
      p ∈ store ∧ p.account_id = accountId ∧
      ∀ r ∈ store, r.account_id = accountId →
        p.hint_count ≤ r.hint_count ∧
        (r.hint_count = p.hint_count → p.time_taken ≤ r.time_taken) := by
  obtain ⟨r0, hr0, hacc0⟩ := h
  have hne : store.filter (fun r => r.account_id = accountId) ≠ [] :=
    List.ne_nil_of_mem (List.mem_filter.mpr ⟨hr0, by simp [hacc0]⟩)
  obtain ⟨p, hhead, hmem, hmin⟩ :=
    insertionSort_head_min hintTimeLe _ hne
  obtain ⟨hps, hpa⟩ := List.mem_filter.mp hmem
  refine ⟨p, hhead, hps, by simpa using hpa, ?_⟩
  intro r hr hra
  have := hmin r (List.mem_filter.mpr ⟨hr, by simp [hra]⟩)
  unfold hintTimeLe at this
  constructor
  · rcases this with h' | ⟨h', _⟩
    · exact le_of_lt h'
    · exact le_of_eq h'
  · intro heq
    rcases this with h' | ⟨_, h'⟩
    · omega
    · exact h'

/-- C7 witness: two records with equal hint counts; the pick is the faster
one. -/
theorem fewestHints_lex_min_witness :
    (∃ r ∈ [(⟨1, "AAAAAAAAAAAA", "t", "easy", 100, 1, 0⟩ : PuzzleRecord),
            ⟨2, "AAAAAAAAAAAA", "t", "easy", 50, 1, 0⟩], r.account_id = "AAAAAAAAAAAA") ∧
    ∃ p, fewestHintsRecord [(⟨1, "AAAAAAAAAAAA", "t", "easy", 100, 1, 0⟩ : PuzzleRecord),
            ⟨2, "AAAAAAAAAAAA", "t", "easy", 50, 1, 0⟩] "AAAAAAAAAAAA" = some p ∧
      p ∈ [(⟨1, "AAAAAAAAAAAA", "t", "easy", 100, 1, 0⟩ : PuzzleRecord),
            ⟨2, "AAAAAAAAAAAA", "t", "easy", 50, 1, 0⟩] ∧
      p.account_id = "AAAAAAAAAAAA" ∧
      ∀ r ∈ [(⟨1, "AAAAAAAAAAAA", "t", "easy", 100, 1, 0⟩ : PuzzleRecord),
            ⟨2, "AAAAAAAAAAAA", "t", "easy", 50, 1, 0⟩], r.account_id = "AAAAAAAAAAAA" →
        p.hint_count ≤ r.hint_count ∧
        (r.hint_count = p.hint_count → p.time_taken ≤ r.time_taken) :=
  ⟨⟨_, List.mem_cons_self .., rfl⟩,
    fewestHints_lex_min _ "AAAAAAAAAAAA" ⟨_, List.mem_cons_self .., rfl⟩⟩

/-- C5: a date-range query with `start > end` or a span above 365 days fails
with the corresponding validation error (returning no records); when
`start ≤ end` and the span is within 365 days, both date checks pass and the
repository query result is returned. -/
theorem getRecordsByDateRange_window (store : List PuzzleRecord)
    (accountId : String) (startDate endDate : Int)
    (hacct : isAccountIdFormat accountId = true) :
    (startDate > endDate →
      getRecordsByDateRange store accountId startDate endDate =
        .error "시작 날짜는 종료 날짜보다 이전이어야 합니다") ∧
    (startDate ≤ endDate → endDate - startDate > oneYearInMs →
      getRecordsByDateRange store accountId startDate endDate =
        .error "조회 기간은 최대 1년입니다") ∧
    (startDate ≤ endDate → endDate - startDate ≤ oneYearInMs →
      getRecordsByDateRange store accountId startDate endDate =
        .ok (findByDateRange store accountId startDate endDate)) := by
  unfold getRecordsByDateRange
  rw [if_neg (by simp [hacct])]
  refine ⟨fun h1 => ?_, fun h1 h2 => ?_, fun h1 h2 => ?_⟩
  · rw [if_pos h1]
  · rw [if_neg (by omega), if_pos h2]
  · rw [if_neg (by omega), if_neg (by omega)]

/-- A submission violating two constraints at once (missing account id and
an excessive hint count). -/
def doublyInvalidSubmission : PuzzleRecord :=
  ⟨0, "", "t", "easy", 10, 150, 0⟩

/-- C4 counterexample: `validate` does not stop at the first violated
constraint — for a record with an empty `account_id` and `hint_count = 150`
the error list contains both messages, so it is not exactly the first
violated constraint. -/
theorem validate_not_first_only_cex :
    (validate doublyInvalidSubmission 0).errors =
      ["계정 ID는 필수입니다", "힌트 사용 횟수가 너무 많습니다 (최대 100회)"] ∧
    (validate doublyInvalidSubmission 0).errors ≠ ["계정 ID는 필수입니다"] := by
  constructor <;> decide

/-- C4 amended: `validate` performs its checks in the fixed order
(account id, puzzle type, difficulty, time taken, hint count, completion
time) and accumulates every violated constraint's message in that order:
the error list is exactly the messages of the failing checks in check
order (so its head is the first violated constraint), and the submission is
valid iff no check fails. -/
theorem validate_accumulates_in_order (r : PuzzleRecord) (now : Int) :
    (validate r now).errors = (checkSequence r now).filterMap id ∧
    (validate r now).errors.head? = (checkSequence r now).findSome? id ∧
    ((validate r now).isValid = true ↔ ∀ c ∈ checkSequence r now, c = none) := by
  unfold validate checkSequence
  cases accountIdCheck r <;> cases puzzleTypeCheck r <;>
    cases difficultyCheck r <;> cases timeTakenCheck r <;>
    cases hintCountCheck r <;> cases completedAtCheck r now <;>
    simp [List.filterMap_cons, List.findSome?_cons]

/-- A record with one hint on `medium` difficulty: the exact spec formula
gives `95 × 1.5 = 142.5`, while the code rounds. -/
def mediumOneHintRecord : PuzzleRecord :=
  ⟨1, "AAAAAAAAAAAA", "t", "medium", 10, 1, 0⟩

/-- C8 counterexample: `getHintScore` is not the spec's exact
"(100 − 5·hints, floored at 0) × multiplier" value — on one hint with
`medium` difficulty the code returns 143 while the formula gives 142.5. -/
theorem getHintScore_not_exact_cex :
    getHintScore mediumOneHintRecord = 143 ∧
    hintScoreSpec mediumOneHintRecord = 285 / 2 ∧
    ((getHintScore mediumOneHintRecord : ℚ) ≠ hintScoreSpec mediumOneHintRecord) := by
  have hlow : lowerString "medium" = "medium" := by decide
  have e1 : (("medium" : String) = "easy") = False := eq_false (by decide)
  have e2 : (("medium" : String) = "medium") = True := eq_true rfl
  refine ⟨?_, ?_, ?_⟩ <;>
    norm_num [getHintScore, hintScoreSpec, difficultyMultiplier,
      mediumOneHintRecord, hlow, e1, e2, round_eq]

/-- Every difficulty multiplier is at least 1. -/
theorem one_le_difficultyMultiplier (d : String) : 1 ≤ difficultyMultiplier d := by
  unfold difficultyMultiplier
  split_ifs <;> norm_num

/-- Rounding commutes with clamping at zero when the multiplier is ≥ 1:
the code's `max(0, round(x·m))` equals `round(max(0,x)·m)`. -/
theorem max_round_mul (x : ℤ) (m : ℚ) (hm : 1 ≤ m) :
    max 0 (round ((x : ℚ) * m)) = round (((max 0 x : ℤ) : ℚ) * m) := by
  have hmono : ∀ a b : ℚ, a ≤ b → round a ≤ round b := fun a b hab => by
    rw [round_eq, round_eq]
    exact Int.floor_mono (by linarith)
  rcases le_or_lt 0 x with hx | hx
  · rw [max_eq_right hx]
    have h0 : (0 : ℚ) ≤ (x : ℚ) * m :=
      mul_nonneg (by exact_mod_cast hx) (le_trans zero_le_one hm)
    have hr : (0 : ℤ) ≤ round ((x : ℚ) * m) := by
      have := hmono 0 ((x : ℚ) * m) h0
      rwa [round_zero] at this
    rw [max_eq_right hr]
  · have hx1 : (x : ℚ) ≤ -1 := by
      have : x ≤ -1 := by omega
      exact_mod_cast this
    have hneg : (x : ℚ) * m ≤ -1 := by nlinarith
    have hr : round ((x : ℚ) * m) ≤ -1 := by
      have := hmono ((x : ℚ) * m) (-1) hneg
      rwa [show round (-1 : ℚ) = -1 from round_intCast (-1)] at this
    rw [max_eq_left (by omega), max_eq_left (le_of_lt hx)]
    simp [round_zero]

/-- C8 amended: `getHintScore` equals the spec's
"(100 − 5·hints, floored at 0) × case-insensitive difficulty multiplier"
value rounded half-up to the nearest integer (the code rounds after
multiplying; since every multiplier is ≥ 1 the clamping order does not
matter). -/
theorem getHintScore_eq_round_spec (r : PuzzleRecord) :
    getHintScore r = round (hintScoreSpec r) := by
  unfold getHintScore hintScoreSpec
  rw [show (100 : Int) - r.hint_count * 5 = 100 - 5 * r.hint_count by ring]
  exact max_round_mul _ _ (one_le_difficultyMultiplier r.difficulty)

/-- Account record that ties on `hint_count` but is slower; it sits earlier
in store order. -/
def slowTiedRecord : PuzzleRecord := ⟨1, "AAAAAAAAAAAA", "t", "easy", 100, 1, 0⟩

/-- Account record tied on `hint_count` with the minimal `time_taken`. -/
def fastTiedRecord : PuzzleRecord := ⟨2, "AAAAAAAAAAAA", "t", "easy", 50, 1, 0⟩

/-- C3 counterexample: `personal_best` is queried with
`ORDER BY hint_count ASC` only (no `time_taken` tie-break), so with two
records tied on hints the store-order first (slower, 100 s) one is returned
even though a tied record with `time_taken = 50` exists — the pick is not
minimal under the canonical `(hint_count, time_taken)` order. -/
theorem getPersonalRanking_best_cex :
    (getPersonalRanking [slowTiedRecord, fastTiedRecord] "AAAAAAAAAAAA" "t"
        none).toOption =
      some ⟨some 1, 2, some slowTiedRecord⟩ ∧
    fastTiedRecord ∈ [slowTiedRecord, fastTiedRecord] ∧
    fastTiedRecord.account_id = "AAAAAAAAAAAA" ∧
    fastTiedRecord.puzzle_type = "t" ∧
    fastTiedRecord.hint_count = slowTiedRecord.hint_count ∧
    fastTiedRecord.time_taken < slowTiedRecord.time_taken := by
  exact ⟨by decide, by decide, rfl, rfl, by decide, by decide⟩

/-- Taking `LIMIT 1` keeps exactly the head. -/
theorem head?_take_one {α : Type} (l : List α) : (l.take 1).head? = l.head? := by
  cases l <;> rfl

/-- C3 amended: for every account with at least one record matching the
given type (and optional difficulty), `personal_best` is one of the
account's matching records with minimal `hint_count`; the `time_taken`
tie-break is NOT applied (among records tied on the minimal hint count the
result is the first in store order, not necessarily the fastest). -/
theorem getPersonalRanking_best_minHints (store : List PuzzleRecord)
    (accountId puzzleType : String) (difficulty : Option String)
    (hacct : isAccountIdFormat accountId = true)
    (h : ∃ r ∈ store, r.account_id = accountId ∧ r.puzzle_type = puzzleType ∧
      ∀ d ∈ difficulty, r.difficulty = d) :
    ∃ res p, getPersonalRanking store accountId puzzleType difficulty = .ok res ∧
      res.personal_best = some p ∧ p ∈ store ∧ p.account_id = accountId ∧
      p.puzzle_type = puzzleType ∧ (∀ d ∈ difficulty, p.difficulty = d) ∧
      ∀ r ∈ store, r.account_id = accountId → r.puzzle_type = puzzleType →
        (∀ d ∈ difficulty, r.difficulty = d) → p.hint_count ≤ r.hint_count := by
  obtain ⟨r0, hr0, ha0, ht0, hd0⟩ := h
  have hopts : matchesQuery accountId
      { puzzle_type := some puzzleType, difficulty := difficulty,
        sort_by := some .hint_count, sort_order := some .ASC, limit := some 1 }
      r0 = true := by
    simp [matchesQuery, ha0, ht0]
    intro d hd
    exact hd0 d hd
  have hne : store.filter (matchesQuery accountId
      { puzzle_type := some puzzleType, difficulty := difficulty,
        sort_by := some .hint_count, sort_order := some .ASC, limit := some 1 }) ≠ [] :=
    List.ne_nil_of_mem (List.mem_filter.mpr ⟨hr0, hopts⟩)
  obtain ⟨p, hhead, hmem, hmin⟩ :=
    insertionSort_head_min (columnOrder .hint_count .ASC) _ hne
  obtain ⟨hps, hpq⟩ := List.mem_filter.mp hmem
  simp only [matchesQuery, decide_eq_true_eq] at hpq
  obtain ⟨hpa, hpt, hpd, -, -⟩ := hpq
  unfold getPersonalRanking
  rw [if_neg (by simp [hacct])]
  refine ⟨_, p, rfl, ?_, hps, hpa, by simpa using hpt, hpd, ?_⟩
  · show (findByAccountId store accountId _).head? = some p
    unfold findByAccountId
    rw [head?_take_one]
    exact hhead
  · intro r hr hra hrt hrd
    have hq : matchesQuery accountId
        { puzzle_type := some puzzleType, difficulty := difficulty,
          sort_by := some .hint_count, sort_order := some .ASC, limit := some 1 }
        r = true := by
      simp [matchesQuery, hra, hrt]
      intro d hd
      exact hrd d hd
    exact hmin r (List.mem_filter.mpr ⟨hr, hq⟩)

/-- C3 amended witness. -/
theorem getPersonalRanking_best_minHints_witness :
    isAccountIdFormat "BBBBBBBBBBBB" = true ∧
    (∃ r ∈ [(⟨7, "BBBBBBBBBBBB", "w", "easy", 30, 2, 0⟩ : PuzzleRecord)],
      r.account_id = "BBBBBBBBBBBB" ∧ r.puzzle_type = "w" ∧
      ∀ d ∈ (none : Option String), r.difficulty = d) ∧
    ∃ res p, getPersonalRanking [(⟨7, "BBBBBBBBBBBB", "w", "easy", 30, 2, 0⟩ : PuzzleRecord)]
        "BBBBBBBBBBBB" "w" none = .ok res ∧
      res.personal_best = some p ∧
      p ∈ [(⟨7, "BBBBBBBBBBBB", "w", "easy", 30, 2, 0⟩ : PuzzleRecord)] ∧
      p.account_id = "BBBBBBBBBBBB" ∧ p.puzzle_type = "w" ∧
      (∀ d ∈ (none : Option String), p.difficulty = d) ∧
      ∀ r ∈ [(⟨7, "BBBBBBBBBBBB", "w", "easy", 30, 2, 0⟩ : PuzzleRecord)],
        r.account_id = "BBBBBBBBBBBB" → r.puzzle_type = "w" →
        (∀ d ∈ (none : Option String), r.difficulty = d) →
        p.hint_count ≤ r.hint_count :=
  ⟨by decide,
   ⟨_, List.mem_cons_self .., rfl, rfl, by simp⟩,
   getPersonalRanking_best_minHints _ "BBBBBBBBBBBB" "w" none (by decide)
     ⟨_, List.mem_cons_self .., rfl, rfl, by simp⟩⟩

/-- C5 witness: a 366-day span is rejected, a 365-day span is accepted. -/
theorem getRecordsByDateRange_window_witness :
    isAccountIdFormat "AAAAAAAAAAAA" = true ∧
    ((0 : Int) ≤ 366 * 24 * 60 * 60 * 1000 →
      366 * 24 * 60 * 60 * 1000 - (0 : Int) > oneYearInMs →
      getRecordsByDateRange [] "AAAAAAAAAAAA" 0 (366 * 24 * 60 * 60 * 1000) =
        .error "조회 기간은 최대 1년입니다") ∧
    ((0 : Int) ≤ 366 * 24 * 60 * 60 * 1000 ∧
      366 * 24 * 60 * 60 * 1000 - (0 : Int) > oneYearInMs) :=
  ⟨by decide,
   (getRecordsByDateRange_window [] "AAAAAAAAAAAA" 0 (366 * 24 * 60 * 60 * 1000)
      (by decide)).2.1,
   by constructor <;> decide⟩

/-- C6: for every non-empty record list, the `by_type` group counts of
`calculateStats` sum to `total_puzzles` — the grouping by `puzzle_type` is a
partition of the input. -/
theorem calculateStats_byType_partition (records : List PuzzleRecord)
    (h : records ≠ []) :
    ((calculateStats records).by_type.map (fun g => g.2.count)).sum =
      (calculateStats records).total_puzzles := by
  obtain ⟨-, -, -, -, -, -, hbt, -⟩ := calculateStats_fields records h
  rw [hbt, show (calculateStats records).total_puzzles = records.length from
    (calculateStats_fields records h).1]
  unfold groupStats
  rw [sumCounts_groupStats_fold]
  simp

/-- C6 witness. -/
theorem calculateStats_byType_partition_witness :
    ([(⟨3, "CCCCCCCCCCCC", "sudoku", "hard", 60, 3, 0⟩ : PuzzleRecord)] ≠ []) ∧
    ((calculateStats [(⟨3, "CCCCCCCCCCCC", "sudoku", "hard", 60, 3, 0⟩ : PuzzleRecord)]).by_type.map
        (fun g => g.2.count)).sum =
      (calculateStats [(⟨3, "CCCCCCCCCCCC", "sudoku", "hard", 60, 3, 0⟩ : PuzzleRecord)]).total_puzzles :=
  ⟨by decide, calculateStats_byType_partition _ (by decide)⟩

/-- C9: `calculateStats` is deterministic (recomputing on the same list is
identical) and order-insensitive: on a permutation of the list every scalar
field (totals, averages, minimum) agrees and the group maps agree as maps
(same lookup result for every key, for both `by_type` and
`by_difficulty`). -/
theorem calculateStats_deterministic_orderFree (l l' : List PuzzleRecord)
    (h : l.Perm l') :
    calculateStats l = calculateStats l ∧
    (calculateStats l).total_puzzles = (calculateStats l').total_puzzles ∧
    (calculateStats l).total_time = (calculateStats l').total_time ∧
    (calculateStats l).average_time = (calculateStats l').average_time ∧
    (calculateStats l).best_time = (calculateStats l').best_time ∧
    (calculateStats l).total_hints = (calculateStats l').total_hints ∧
    (calculateStats l).average_hints = (calculateStats l').average_hints ∧
    (∀ k, lookupGroup k (calculateStats l).by_type =
      lookupGroup k (calculateStats l').by_type) ∧
    (∀ k, lookupGroup k (calculateStats l).by_difficulty =
      lookupGroup k (calculateStats l').by_difficulty) := by
  rcases eq_or_ne l [] with rfl | hne
  · rw [(h.symm.eq_nil : l' = [])]
    exact ⟨rfl, rfl, rfl, rfl, rfl, rfl, rfl, fun k => rfl, fun k => rfl⟩
  · have hne' : l' ≠ [] := fun e => hne ((e ▸ h).eq_nil)
    obtain ⟨p1, t1, h1, b1, a1, g1, bt1, bd1⟩ := calculateStats_fields l hne
    obtain ⟨p2, t2, h2, b2, a2, g2, bt2, bd2⟩ := calculateStats_fields l' hne'
    have hts : (l.map (·.time_taken)).sum = (l'.map (·.time_taken)).sum :=
      (h.map (·.time_taken)).sum_eq
    have hhs : (l.map (·.hint_count)).sum = (l'.map (·.hint_count)).sum :=
      (h.map (·.hint_count)).sum_eq
    have hlen : l.length = l'.length := h.length_eq
    have hmin : minIntList (l.map (·.time_taken)) =
        minIntList (l'.map (·.time_taken)) := minIntList_perm (h.map (·.time_taken))
    refine ⟨rfl, ?_, ?_, ?_, ?_, ?_, ?_, ?_, ?_⟩
    · rw [p1, p2, hlen]
    · rw [t1, t2, hts]
    · rw [a1, a2, hts, hlen]
    · rw [b1, b2, hmin]
    · rw [h1, h2, hhs]
    · rw [g1, g2, hhs, hlen]
    · intro k
      rw [bt1, bt2]
      exact lookupGroup_groupStats_perm _ k h
    · intro k
      rw [bd1, bd2]
      exact lookupGroup_groupStats_perm _ k h

/-- C9 witness: a two-element list and its swap. -/
theorem calculateStats_deterministic_orderFree_witness :
    ([(⟨4, "DDDDDDDDDDDD", "a", "easy", 10, 0, 0⟩ : PuzzleRecord),
      ⟨5, "DDDDDDDDDDDD", "b", "hard", 20, 2, 0⟩].Perm
     [(⟨5, "DDDDDDDDDDDD", "b", "hard", 20, 2, 0⟩ : PuzzleRecord),
      ⟨4, "DDDDDDDDDDDD", "a", "easy", 10, 0, 0⟩]) ∧
    (calculateStats [(⟨4, "DDDDDDDDDDDD", "a", "easy", 10, 0, 0⟩ : PuzzleRecord),
        ⟨5, "DDDDDDDDDDDD", "b", "hard", 20, 2, 0⟩]).total_puzzles =
      (calculateStats [(⟨5, "DDDDDDDDDDDD", "b", "hard", 20, 2, 0⟩ : PuzzleRecord),
        ⟨4, "DDDDDDDDDDDD", "a", "easy", 10, 0, 0⟩]).total_puzzles ∧
    (∀ k, lookupGroup k (calculateStats
        [(⟨4, "DDDDDDDDDDDD", "a", "easy", 10, 0, 0⟩ : PuzzleRecord),
         ⟨5, "DDDDDDDDDDDD", "b", "hard", 20, 2, 0⟩]).by_type =
      lookupGroup k (calculateStats
        [(⟨5, "DDDDDDDDDDDD", "b", "hard", 20, 2, 0⟩ : PuzzleRecord),
         ⟨4, "DDDDDDDDDDDD", "a", "easy", 10, 0, 0⟩]).by_type) :=
  ⟨List.Perm.swap _ _ _,
   (calculateStats_deterministic_orderFree _ _ (List.Perm.swap _ _ _)).2.1,
   (calculateStats_deterministic_orderFree _ _ (List.Perm.swap _ _ _)).2.2.2.2.2.2.2.1⟩
